import Mathlib

/-!
Verification of the maintainer/orphan classification tools
(`find-proxy-users.py`, `check-bugs.py`) and of the auxiliary scripts
(`socktest.py`, `check-files.py`) of this repository.

The Python sources are shallowly embedded: the external metadata reader
(`portage.xml.metadata.MetaDataXML`) supplies, per package, a sequence of
herd entries and a sequence of maintainer records; we model its outputs
directly.  A herd entry is modelled as a pair whose first component is the
herd tag name (the source expression `herds[0][0]` reads the name component
of the first entry).  Machine-level concerns (file I/O, printing, colour)
are out of scope; pure logic is translated function by function.
-/

namespace ProxyTools

/-- Maintainer record as supplied by the metadata reader:
email, optional display name, optional free-text description. -/
structure Maintainer where
  email : String
  name : Option String := none
  description : Option String := none
deriving DecidableEq

/-- A package as consumed by the classifier: its atom (category/name),
its herd entries (tag name plus optional herd email) and its maintainer
records in document order. -/
structure Package where
  atom : String
  herds : List (String × Option String)
  maintainers : List Maintainer
deriving DecidableEq

/-- Python substring test `pat in hay` on character lists. -/
def listContains (hay pat : List Char) : Bool :=
  hay.tails.any (fun t => pat.isPrefixOf t)

/-- `'gentoo.org' in email` — the internal-domain substring test used by
`find-proxy-users.py`. -/
def hasGentooOrg (e : String) : Bool :=
  listContains e.toList "gentoo.org".toList

/-- Embedding of `is_orphan` (find-proxy-users.py, lines 364-384):

    if len(herds) == 0 or (len(herds) == 1 and herds[0][0] == 'proxy-maintainers'):
        if len(maintainers) == 0:
            orphaned = True
        elif len(maintainers) == 1 and maintainers[0].email == 'maintainer-needed@gentoo.org':
            orphaned = True
-/
def is_orphan (pkg : Package) : Bool :=
  if pkg.herds.length = 0 ∨
      (pkg.herds.length = 1 ∧ (pkg.herds.headD ("", none)).1 = "proxy-maintainers") then
    if pkg.maintainers.length = 0 then true
    else if pkg.maintainers.length = 1 ∧
        (pkg.maintainers.headD { email := "" }).email = "maintainer-needed@gentoo.org" then true
    else false
  else false

/-- Embedding of `is_proxy_maintained` (find-proxy-users.py, lines 407-424):

    if len(xml.maintainers()) > 0:
        for maintainer in xml.maintainers():
            if 'gentoo.org' not in maintainer.email:
                return True
    return False
-/
def is_proxy_maintained (pkg : Package) : Bool :=
  if pkg.maintainers.length > 0 then
    pkg.maintainers.any (fun m => !(hasGentooOrg m.email))
  else false

/-- The three-valued classification of the spec. -/
inductive Classification where
  | OfficiallyMaintained
  | Orphaned
  | ProxyMaintained
deriving DecidableEq

/-- The classification the scripts realise: a package is reported orphaned
iff `is_orphan` holds (`orphans` and `query --orphans` modes), reported
proxy-maintained iff `is_proxy_maintained` holds (`users` / `xml` modes),
and is otherwise officially maintained (never reported).  The two
predicates are mutually exclusive (proved below), so the branch order does
not matter. -/
def classify (pkg : Package) : Classification :=
  if is_orphan pkg then Classification.Orphaned
  else if is_proxy_maintained pkg then Classification.ProxyMaintained
  else Classification.OfficiallyMaintained

/-- Sentinel emails of the spec (§3): the `maintainer-needed` address and
the empty string. -/
def isSentinelEmail (e : String) : Bool :=
  e = "maintainer-needed@gentoo.org" ∨ e = ""

/-- Single forward pass of the spec's selection algorithm (§4.1, §9): two
candidate slots (sentinel candidate, proxy candidate), each updated to the
latest maintainer matching its condition. -/
def resolveScan (ms : List Maintainer) : Option Maintainer × Option Maintainer :=
  ms.foldl
    (fun acc m =>
      (if isSentinelEmail m.email then some m else acc.1,
       if !(hasGentooOrg m.email) then some m else acc.2))
    (none, none)

/-- Modelled from the spec: the operation `resolve_proxy_maintainer`
(spec §4.1) has no single implementation under src/ — `check-bugs.py`
realises only its zero-maintainer branch and `get_maintainers` in
`find-proxy-users.py` groups all external maintainers instead of picking
one.  Per the spec: with no maintainers return a synthetic contact with
the "no maintainer" sentinel email; otherwise scan maintainers in order
with two candidate slots and resolve with the proxy candidate (last
non-internal-domain email) taking priority over the sentinel candidate
(last "unmaintained" sentinel email), falling back to the first
maintainer. -/
def resolve_proxy_maintainer (pkg : Package) : Maintainer :=
  match pkg.maintainers with
  | [] => { email := "maintainer-needed@gentoo.org" }
  | m :: _ =>
    match (resolveScan pkg.maintainers).2 with
    | some p => p
    | none =>
      match (resolveScan pkg.maintainers).1 with
      | some s => s
      | none => m

/-- Last element of `ms` satisfying `p` (single forward pass, latest match
kept). -/
def lastSuch (p : Maintainer → Bool) (ms : List Maintainer) : Option Maintainer :=
  ms.foldl (fun acc m => if p m then some m else acc) none

/-- Embedding of `check-bugs.py` main, lines 134-136: the maintainer email
tuple for a bug's atom, replaced by the sentinel pair when empty:

    maintainers = get_maintainers(atom)
    if len(maintainers) == 0:
        maintainers = tuple(['maintainer-needed@gentoo.org', ''])
-/
def checkBugsEffectiveMaintainers (ms : List String) : List String :=
  if ms.length = 0 then ["maintainer-needed@gentoo.org", ""] else ms

/-- The assignee `check-bugs.py` prints is `maintainers[0]` of the
effective tuple (lines 152-158). -/
def checkBugsAssignee (ms : List String) : String :=
  (checkBugsEffectiveMaintainers ms).headD ""

/-- Two maintainers whose emails are both the empty-string sentinel, with
the single proxy-maintainers herd tag. -/
def pkgC1 : Package :=
  { atom := "app-misc/c1",
    herds := [("proxy-maintainers", none)],
    maintainers := [{ email := "" }, { email := "" }] }

/-- No herds, no maintainers. -/
def pkgC2 : Package :=
  { atom := "app-misc/c2", herds := [], maintainers := [] }

/-- Two herd entries, neither the proxy-maintainers tag. -/
def pkgW2 : Package :=
  { atom := "app-misc/w2",
    herds := [("games", none), ("sound", none)],
    maintainers := [] }

/-- No herds, a single maintainer carrying the maintainer-needed sentinel
(an internal-domain email). -/
def pkgC3 : Package :=
  { atom := "app-misc/c3",
    herds := [],
    maintainers := [{ email := "maintainer-needed@gentoo.org" }] }

/-- The proxy-maintainers herd tag plus one ordinary internal developer. -/
def pkgW3 : Package :=
  { atom := "app-misc/w3",
    herds := [("proxy-maintainers", none)],
    maintainers := [{ email := "dev@gentoo.org" }] }

/-- No herds, no maintainers (C4 witness input). -/
def pkgW4 : Package :=
  { atom := "dev-util/w4", herds := [], maintainers := [] }

/-- Spec §8 concrete scenario: proxy-maintainers herd, an internal
developer followed by an external proxy maintainer. -/
def pkgW5 : Package :=
  { atom := "app-misc/w5",
    herds := [("proxy-maintainers", none)],
    maintainers :=
      [{ email := "dev@gentoo.org", name := some "Dev" },
       { email := "outside@example.com", name := some "Jane Doe" }] }

/-- An external proxy maintainer followed by an empty-string-email
maintainer. -/
def pkgC5 : Package :=
  { atom := "app-misc/c5",
    herds := [("proxy-maintainers", none)],
    maintainers :=
      [{ email := "bob@example.com", name := some "Bob" }, { email := "" }] }

/-- The external non-sentinel maintainer of `pkgC5`. -/
def mBob : Maintainer := { email := "bob@example.com", name := some "Bob" }

/-- The empty-string-email maintainer of `pkgC5`. -/
def mEmpty : Maintainer := { email := "" }

/-- An entry of the `maintainers` dict built by `get_maintainers`
(find-proxy-users.py, lines 323-361): email key, display name recorded at
first insertion, and the atoms appended in encounter order. -/
abbrev MEntry := String × Option String × List String

/-- Python string comparison is code-point lexicographic; `String.le` of
core Lean does not reduce in the kernel, so key sorting uses the
equivalent lexicographic order on the underlying character lists. -/
def emailLe (a b : String) : Prop := a.toList ≤ b.toList

instance : DecidableRel emailLe :=
  fun a b => (inferInstance : Decidable (a.toList ≤ b.toList))

instance : IsTotal String emailLe := ⟨fun a b => le_total a.toList b.toList⟩

instance : IsTrans String emailLe := ⟨fun _ _ _ h1 h2 => le_trans h1 h2⟩

instance : IsAntisymm String emailLe :=
  ⟨fun _ _ h1 h2 => String.ext (le_antisymm h1 h2)⟩

/-- `maintainer_list.sort()` — Python's in-place sort of the dict keys. -/
def sortKeys (l : List String) : List String := List.insertionSort emailLe l

/-- Insert-or-update of a Python dict entry in insertion order: `miss` is
the value stored on a missing key, `upd` the update applied to a present
one. -/
def upsert {β : Type} (key : String) (miss : β) (upd : β → β) :
    List (String × β) → List (String × β)
  | [] => [(key, miss)]
  | e :: es =>
    if e.1 = key then (e.1, upd e.2) :: es
    else e :: upsert key miss upd es

/-- The dict update of `get_maintainers`:

    try: maintainers[email]
    except KeyError: maintainers[email] = [maintainer.name, []]
    maintainers[email][1].append(atom)
-/
def addMaintAtom (email : String) (name : Option String) (atom : String)
    (acc : List MEntry) : List MEntry :=
  upsert email (name, [atom]) (fun v => (v.1, v.2 ++ [atom])) acc

/-- The inner loop of `get_maintainers` over one package's maintainers:
every maintainer whose email lacks `gentoo.org` has the atom appended
under its email key. -/
def addPkgMaintainers (atom : String) (ms : List Maintainer)
    (acc : List MEntry) : List MEntry :=
  ms.foldl
    (fun acc2 m =>
      if hasGentooOrg m.email = false then addMaintAtom m.email m.name atom acc2
      else acc2)
    acc

/-- Embedding of `get_maintainers` (find-proxy-users.py, lines 323-361) in
its address-less, category-less mode: iterate packages in input order and,
for each proxy-maintained one, record the atom under every external
maintainer email. -/
def get_maintainers (pkgs : List Package) : List MEntry :=
  pkgs.foldl
    (fun acc pkg =>
      if is_proxy_maintained pkg = true then
        addPkgMaintainers pkg.atom pkg.maintainers acc
      else acc)
    []

/-- The email keys of the maintainers dict, in insertion order. -/
def mKeys (l : List MEntry) : List String := l.map Prod.fst

/-- The grouped report of `list_user_maintainers` / `print_xml`: the dict
entries ordered by sorted email key. -/
def sortedReport (pkgs : List Package) : List MEntry :=
  List.insertionSort (fun a b : MEntry => emailLe a.1 b.1) (get_maintainers pkgs)

/-- Package listing email `e@x.com` under display name X. -/
def pkgA7 : Package :=
  { atom := "cat/a",
    herds := [("proxy-maintainers", none)],
    maintainers := [{ email := "e@x.com", name := some "X" }] }

/-- Package listing the same email `e@x.com` under display name Y. -/
def pkgB7 : Package :=
  { atom := "cat/b",
    herds := [("proxy-maintainers", none)],
    maintainers := [{ email := "e@x.com", name := some "Y" }] }

/-- Observable events of one `socktest.py` run: a `time.sleep(delay)`
call, or an actual connection attempt on a port with its outcome. -/
inductive ScanEvent where
  | sleep (secs : Nat)
  | attempt (port : Nat) (ok : Bool)
deriving DecidableEq

/-- Embedding of `testConnection` (socktest.py, lines 24-51): returns the
updated module-level tested list `t` and the outcome — `none` when the
port is already in `t` (early `return None`, no socket opened), otherwise
`some` of whether the blocking `connect` succeeded; `socket.error` is
caught and reported as `False`.  The network is the oracle `connects`. -/
def testConnection (connects : Nat → Bool) (t : List Nat) (rport : Nat) :
    List Nat × Option Bool :=
  if rport ∈ t then (t, none)
  else (t ++ [rport], some (connects rport))

/-- Embedding of the `__main__` port loop (socktest.py, lines 140-147):

    for p in port:
        time.sleep(args.delay)
        testConnection(host, p)

Each iteration sleeps the fixed delay and then calls `testConnection`;
the trace records sleeps and socket-opening attempts with outcomes. -/
def portLoop (connects : Nat → Bool) (delay : Nat) :
    List Nat → List Nat → List ScanEvent
  | _, [] => []
  | t, p :: ps =>
    let r := testConnection connects t p
    ScanEvent.sleep delay ::
      (match r.2 with
       | none => portLoop connects delay r.1 ps
       | some b => ScanEvent.attempt p b :: portLoop connects delay r.1 ps)

/-- Forcing port `q`'s connection outcome to failure, as an event
transformation. -/
def forceFailAt (q : Nat) : ScanEvent → ScanEvent
  | ScanEvent.attempt p b => ScanEvent.attempt p (if p = q then false else b)
  | e => e

/-- The ports at which a socket was actually opened, in trace order. -/
def attemptedPorts (evs : List ScanEvent) : List Nat :=
  evs.filterMap
    (fun e => match e with
      | ScanEvent.attempt p _ => some p
      | _ => none)

/-- Python exception types raised by `check_files` in check-files.py. -/
inductive PyErr where
  | runtimeError
  | attributeError
deriving DecidableEq

/-- Python regex whitespace class `\s` (ASCII range). -/
def isPySpace (c : Char) : Bool :=
  c == ' ' || c == '\t' || c == '\n' || c == '\r' || c == '\x0b' || c == '\x0c'

/-- `str.replace(pat, rep)` — replaces all non-overlapping occurrences,
left to right.  Fuel-based structural recursion; fuel equal to the length
of the string suffices because each step consumes at least one
character. -/
def replaceAllAux (pat rep : List Char) : Nat → List Char → List Char
  | 0, s => s
  | _, [] => []
  | fuel+1, c :: cs =>
    if pat.isPrefixOf (c :: cs) && !(pat.isEmpty) then
      rep ++ replaceAllAux pat rep fuel ((c :: cs).drop pat.length)
    else c :: replaceAllAux pat rep fuel cs

/-- `line.replace(pat, rep)` with non-empty literal patterns. -/
def replaceAll (pat rep s : List Char) : List Char :=
  replaceAllAux pat rep s.length s

/-- `re.sub('-r\d+', '', s)`: scan left to right, removing each maximal
`-r<digits>` match and continuing after it. -/
def subRNAux : Nat → List Char → List Char
  | 0, s => s
  | fuel+1, '-' :: 'r' :: c2 :: cs2 =>
    if c2.isDigit then subRNAux fuel (List.dropWhile (fun d => d.isDigit) cs2)
    else '-' :: subRNAux fuel ('r' :: c2 :: cs2)
  | _+1, [] => []
  | fuel+1, c :: cs => c :: subRNAux fuel cs

/-- `re.sub('-r\d+', '', s)`. -/
def subRN (s : List Char) : List Char := subRNAux s.length s

/-- `re.sub('-\d.*', '', s)`: everything from the first
hyphen-then-digit occurrence onwards is removed. -/
def subDashDigit : List Char → List Char
  | [] => []
  | [c] => [c]
  | a :: b :: cs =>
    if a == '-' && b.isDigit then []
    else a :: subDashDigit (b :: cs)

/-- `re.search('-\d.*', s)`: the match, running from the first
hyphen-then-digit occurrence to the end, if any. -/
def searchDashDigit : List Char → Option (List Char)
  | [] => none
  | [_] => none
  | a :: b :: cs =>
    if a == '-' && b.isDigit then some (a :: b :: cs)
    else searchDashDigit (b :: cs)

/-- `re.match('\s*#', line)` is not `None`: the line is a comment. -/
def isComment (line : List Char) : Bool :=
  match line.dropWhile (fun c => isPySpace c) with
  | '#' :: _ => true
  | _ => false

/-- `re.search('files\S+', line)`: leftmost occurrence of the literal
`files` followed by at least one non-whitespace character; the match
greedily extends over the following non-whitespace run. -/
def searchFilesTok : List Char → Option (List Char)
  | [] => none
  | c :: cs =>
    if ("files".toList).isPrefixOf (c :: cs) then
      match ((c :: cs).drop 5).takeWhile (fun ch => !(isPySpace ch)) with
      | [] => searchFilesTok cs
      | tok => some ("files".toList ++ tok)
    else searchFilesTok cs

/-- P, PN, PV extraction for one ebuild file name (check-files.py,
lines 72-75):

    P = ebuild[:-7]
    P = re.sub('-r\d+', '', P)
    PN = re.sub('-\d.*', '', P)
    PV = re.search('-\d.*', P).group(0)[1:]

When `re.search` finds no match it returns `None` and `.group(0)` raises
AttributeError, which `check_files` does not catch. -/
def ebuildVars (fname : String) :
    Except PyErr (List Char × List Char × List Char) :=
  let base := fname.toList.take (fname.toList.length - 7)
  let P := subRN base
  let PN := subDashDigit P
  match searchDashDigit P with
  | none => Except.error PyErr.attributeError
  | some s => Except.ok (P, PN, s.drop 1)

/-- One ebuild line (check-files.py, lines 77-104): a line containing
`FILESDIR` that is not a comment goes through the literal replacements
and the `files\S+` search; when the search fails only an error is
printed (that AttributeError is caught) and nothing is recorded. -/
def processLine (P PN PV line : List Char) : Option (List Char) :=
  if listContains line "FILESDIR".toList then
    if isComment line then none
    else
      let l1 := replaceAll "${FILESDIR}".toList "files".toList line
      let l2 := replaceAll "${P}".toList P l1
      let l3 := replaceAll "${PN}".toList PN l2
      let l4 := replaceAll "${PV}".toList PV l3
      let l5 := replaceAll "\"".toList [] l4
      let l6 := replaceAll ".patch)".toList ".patch".toList l5
      searchFilesTok l6
  else none

/-- The `files[P].append(required_file)` dict update of `check_files`. -/
def addReq (key v : String) (acc : List (String × List String)) :
    List (String × List String) :=
  upsert key [v] (fun l => l ++ [v]) acc

/-- All FILESDIR references found in one ebuild's lines, appended under
its `P` key. -/
def collectLines (P PN PV : List Char) (Pkey : String) (lines : List String)
    (acc : List (String × List String)) : List (String × List String) :=
  lines.foldl
    (fun a line =>
      match processLine P PN PV line.toList with
      | some rf => addReq Pkey (String.mk rf) a
      | none => a)
    acc

/-- The ebuild loop of `check_files`: variable extraction may raise (the
AttributeError propagates out of the whole function), otherwise the
ebuild's lines are scanned and its references recorded. -/
def collectFiles (content : String → List String) :
    List String → List (String × List String) →
      Except PyErr (List (String × List String))
  | [], acc => Except.ok acc
  | eb :: rest, acc =>
    match ebuildVars eb with
    | Except.error e => Except.error e
    | Except.ok (P, PN, PV) =>
      collectFiles content rest
        (collectLines P PN PV (String.mk P) (content eb) acc)

/-- Sum of a weight over all recorded references of all dict entries. -/
def totalWeight (w : String → Nat)
    (files : List (String × List String)) : Nat :=
  (files.map (fun e => (e.2.map w).sum)).sum

/-- Flat list of the FILESDIR references of one ebuild (empty when
variable extraction fails). -/
def ebuildReqs (content : String → List String) (eb : String) :
    List String :=
  match ebuildVars eb with
  | Except.error _ => []
  | Except.ok (P, PN, PV) =>
    (content eb).filterMap
      (fun line => (processLine P PN PV line.toList).map String.mk)

/-- All FILESDIR references of a list of ebuilds, in encounter order. -/
def flatReqs (content : String → List String) (ebuilds : List String) :
    List String :=
  ebuilds.foldr (fun eb acc => ebuildReqs content eb ++ acc) []

/-- `f.endswith('.ebuild')` (core `String.endsWith` does not reduce in
the kernel, so the underlying character lists are compared). -/
def strEndsWith (s suf : String) : Bool :=
  suf.toList.isSuffixOf s.toList

/-- Embedding of `check_files` (check-files.py, lines 52-149).  The
directory is abstracted by its file-name listing, a `content` map from a
file name to its lines, the existence flag of the `files` subdirectory,
and an `isfile` query on referenced paths relative to the directory.
Printing is omitted, including the trailing no-longer-required report,
which does not affect the return value.  When no ebuild is present a
RuntimeError is raised; when the `files` directory is missing the code
adds `len(v)` — the length of each referenced path string — per
reference; otherwise it counts one per referenced file that is not on
disk, iterating packages in sorted key order. -/
def check_files (listing : List String) (content : String → List String)
    (filesDirExists : Bool) (isfile : String → Bool) : Except PyErr Nat :=
  let ebuilds := listing.filter (fun f => strEndsWith f ".ebuild")
  if ebuilds.length = 0 then Except.error PyErr.runtimeError
  else
    match collectFiles content ebuilds [] with
    | Except.error e => Except.error e
    | Except.ok files =>
      let fileList := sortKeys (files.map Prod.fst)
      if fileList.length > 0 then
        if filesDirExists = false then
          Except.ok (totalWeight String.length files)
        else
          Except.ok ((fileList.map (fun pkg =>
            ((files.lookup pkg).getD []).countP (fun f => !(isfile f)))).sum)
      else Except.ok 0

/-- `main` of check-files.py (lines 45-49): RuntimeError is caught and
becomes return value -1; any other exception propagates. -/
def check_files_main (listing : List String) (content : String → List String)
    (filesDirExists : Bool) (isfile : String → Bool) : Except PyErr Int :=
  match check_files listing content filesDirExists isfile with
  | Except.ok n => Except.ok (n : Int)
  | Except.error PyErr.runtimeError => Except.ok (-1)
  | Except.error e => Except.error e

/-- A single ebuild line referencing one patch under FILESDIR. -/
def demoLine : String := "epatch \"${FILESDIR}/${P}-fix.patch\""

/-- Content oracle serving `demoLine` for every file. -/
def demoContent : String → List String := fun _ => [demoLine]

lemma is_orphan_iff (pkg : Package) :
    is_orphan pkg = true ↔
      ((pkg.herds = [] ∨ ∃ h, pkg.herds = [h] ∧ h.1 = "proxy-maintainers") ∧
       (pkg.maintainers = [] ∨
         ∃ m, pkg.maintainers = [m] ∧ m.email = "maintainer-needed@gentoo.org")) := by
  obtain ⟨atom, hs, ms⟩ := pkg
  rcases hs with _ | ⟨h, _ | ⟨h2, hrest⟩⟩ <;>
    rcases ms with _ | ⟨m, _ | ⟨m2, mrest⟩⟩ <;>
    simp [is_orphan]

lemma is_proxy_iff (pkg : Package) :
    is_proxy_maintained pkg = true ↔
      ∃ m ∈ pkg.maintainers, hasGentooOrg m.email = false := by
  obtain ⟨atom, hs, ms⟩ := pkg
  rcases ms with _ | ⟨m, mrest⟩ <;> simp [is_proxy_maintained]

lemma orphan_not_proxy (pkg : Package) (h : is_orphan pkg = true) :
    is_proxy_maintained pkg = false := by
  rcases (is_orphan_iff pkg).1 h with ⟨_, hm | ⟨m, hm, hemail⟩⟩
  · simp [is_proxy_maintained, hm]
  · have : hasGentooOrg m.email = true := by rw [hemail]; decide
    simp [is_proxy_maintained, hm, this]

lemma classify_orphaned_iff (pkg : Package) :
    classify pkg = Classification.Orphaned ↔ is_orphan pkg = true := by
  unfold classify
  split
  · simp [*]
  · split <;> simp_all

lemma classify_proxy_iff (pkg : Package) :
    classify pkg = Classification.ProxyMaintained ↔ is_proxy_maintained pkg = true := by
  unfold classify
  split
  · rename_i horph
    have := orphan_not_proxy pkg horph
    simp_all
  · split <;> simp_all

lemma classify_official_iff (pkg : Package) :
    classify pkg = Classification.OfficiallyMaintained ↔
      (is_orphan pkg = false ∧ is_proxy_maintained pkg = false) := by
  unfold classify
  split <;> [skip; split] <;> simp_all

lemma foldl_pair_split (f : Option Maintainer → Maintainer → Option Maintainer)
    (g : Option Maintainer → Maintainer → Option Maintainer) :
    ∀ (ms : List Maintainer) (a b : Option Maintainer),
      ms.foldl (fun acc m => (f acc.1 m, g acc.2 m)) (a, b) =
        (ms.foldl f a, ms.foldl g b) := by
  intro ms
  induction ms with
  | nil => intro a b; rfl
  | cons m rest ih => intro a b; simp [List.foldl_cons, ih]

lemma resolveScan_snd (ms : List Maintainer) :
    (resolveScan ms).2 = lastSuch (fun m => !(hasGentooOrg m.email)) ms := by
  unfold resolveScan lastSuch
  rw [foldl_pair_split (fun a m => if isSentinelEmail m.email then some m else a)
        (fun a m => if !(hasGentooOrg m.email) then some m else a) ms none none]

lemma foldl_lastSuch_some (p : Maintainer → Bool) :
    ∀ (ms : List Maintainer) (x : Maintainer), p x = true →
      ∃ y, ms.foldl (fun acc m => if p m then some m else acc) (some x) = some y ∧
        p y = true := by
  intro ms
  induction ms with
  | nil => intro x hx; exact ⟨x, rfl, hx⟩
  | cons m rest ih =>
    intro x hx
    by_cases hm : p m = true
    · simpa [hm] using ih m hm
    · simpa [hm] using ih x hx

lemma lastSuch_some_of_mem (p : Maintainer → Bool) :
    ∀ (ms : List Maintainer) (m : Maintainer), m ∈ ms → p m = true →
      ∃ y, lastSuch p ms = some y ∧ p y = true := by
  intro ms
  induction ms with
  | nil => intro m hm; cases hm
  | cons a rest ih =>
    intro m hm hp
    by_cases ha : p a = true
    · simpa [lastSuch, ha] using foldl_lastSuch_some p rest a ha
    · rcases List.mem_cons.1 hm with rfl | hm2
      · exact absurd hp ha
      · simpa [lastSuch, ha] using ih m hm2 hp

/-- C1, counterexample: `pkgC1` has herds consisting of exactly the
proxy-maintainers tag, is not officially maintained under any reading of
rule 1 (one herd carrying the tag, and not every maintainer internal), and
every maintainer has a sentinel email (the empty string) — yet the code
classifies it ProxyMaintained, not Orphaned.  The claimed
iff is therefore false: `is_orphan` accepts neither the empty-string
sentinel nor more than one sentinel maintainer. -/
theorem c1_counterexample :
    (∀ m ∈ pkgC1.maintainers,
      m.email = "maintainer-needed@gentoo.org" ∨ m.email = "") ∧
    pkgC1.herds = [("proxy-maintainers", none)] ∧
    ¬ (pkgC1.herds.length > 1 ∨ "proxy-maintainers" ∉ pkgC1.herds.map Prod.fst) ∧
    ¬ (∀ m ∈ pkgC1.maintainers, hasGentooOrg m.email = true) ∧
    classify pkgC1 = Classification.ProxyMaintained ∧
    classify pkgC1 ≠ Classification.Orphaned := by
  refine ⟨by decide, rfl, by decide, by decide, by decide, by decide⟩

/-- C1, amended: classification returns Orphaned exactly when the herds
are empty or a single entry named proxy-maintainers, and the maintainer
list is empty or exactly one maintainer whose email is exactly
`maintainer-needed@gentoo.org`.  (The empty-string email is not treated
as a sentinel, and two or more sentinel maintainers disqualify orphan
status.) -/
theorem c1_orphan_iff_amended (pkg : Package) :
    classify pkg = Classification.Orphaned ↔
      ((pkg.herds = [] ∨ ∃ h, pkg.herds = [h] ∧ h.1 = "proxy-maintainers") ∧
       (pkg.maintainers = [] ∨
         ∃ m, pkg.maintainers = [m] ∧
           m.email = "maintainer-needed@gentoo.org")) := by
  rw [classify_orphaned_iff, is_orphan_iff]

/-- C2, counterexample: `pkgC2` has empty herds, so the proxy-maintainers
tag is absent from its herds, yet classification returns Orphaned, not
OfficiallyMaintained: `is_proxy_maintained` never reads herds and
`is_orphan` accepts empty herds, so rule 1 as claimed does not exist in
the code. -/
theorem c2_counterexample :
    ("proxy-maintainers" ∉ pkgC2.herds.map Prod.fst) ∧
    classify pkgC2 = Classification.Orphaned ∧
    classify pkgC2 ≠ Classification.OfficiallyMaintained := by
  refine ⟨by decide, by decide, by decide⟩

/-- C2, amended: for every package whose herds contain more than one
entry, or are non-empty without the proxy-maintainers tag, classification
never returns Orphaned; it returns ProxyMaintained exactly when some
maintainer's email lacks the internal-domain substring, and
OfficiallyMaintained exactly when every maintainer's email contains it. -/
theorem c2_amended (pkg : Package)
    (h : pkg.herds.length > 1 ∨
      (pkg.herds ≠ [] ∧ "proxy-maintainers" ∉ pkg.herds.map Prod.fst)) :
    classify pkg ≠ Classification.Orphaned ∧
    (classify pkg = Classification.ProxyMaintained ↔
      ∃ m ∈ pkg.maintainers, hasGentooOrg m.email = false) ∧
    (classify pkg = Classification.OfficiallyMaintained ↔
      ∀ m ∈ pkg.maintainers, hasGentooOrg m.email = true) := by
  have horph : is_orphan pkg = false := by
    rw [← Bool.not_eq_true, is_orphan_iff]
    rintro ⟨hh | ⟨he, hh, htag⟩, -⟩
    · rcases h with h | ⟨hne, -⟩
      · rw [hh] at h; simp at h
      · exact hne hh
    · rcases h with h | ⟨-, habs⟩
      · rw [hh] at h; simp at h
      · exact habs (by rw [hh]; simp [htag])
  refine ⟨?_, ?_, ?_⟩
  · rw [Ne, classify_orphaned_iff, horph]; simp
  · rw [classify_proxy_iff, is_proxy_iff]
  · rw [classify_official_iff]
    constructor
    · rintro ⟨-, hpx⟩ m hm
      by_contra hc
      have : is_proxy_maintained pkg = true :=
        (is_proxy_iff pkg).2 ⟨m, hm, by simpa using hc⟩
      rw [this] at hpx; cases hpx
    · intro hall
      refine ⟨horph, ?_⟩
      rw [← Bool.not_eq_true, is_proxy_iff]
      rintro ⟨m, hm, hf⟩
      rw [hall m hm] at hf; cases hf

/-- C2 witness: a package with two herd entries and no maintainers is not
Orphaned, and is OfficiallyMaintained since (vacuously) every maintainer
email contains the internal-domain substring. -/
theorem c2_witness :
    classify pkgW2 ≠ Classification.Orphaned ∧
    (classify pkgW2 = Classification.ProxyMaintained ↔
      ∃ m ∈ pkgW2.maintainers, hasGentooOrg m.email = false) ∧
    (classify pkgW2 = Classification.OfficiallyMaintained ↔
      ∀ m ∈ pkgW2.maintainers, hasGentooOrg m.email = true) :=
  c2_amended pkgW2 (Or.inl (by decide))

/-- C3, counterexample: every maintainer of `pkgC3` has an email
containing the internal-domain substring (the sentinel address contains
`gentoo.org`), yet classification is Orphaned, not OfficiallyMaintained. -/
theorem c3_counterexample :
    pkgC3.maintainers ≠ [] ∧
    (∀ m ∈ pkgC3.maintainers, hasGentooOrg m.email = true) ∧
    classify pkgC3 = Classification.Orphaned ∧
    classify pkgC3 ≠ Classification.OfficiallyMaintained := by
  refine ⟨by decide, by decide, by decide, by decide⟩

/-- C3, amended: a package with at least one maintainer, all of whose
maintainer emails contain the internal-domain substring, and which does
not consist of exactly one maintainer with the maintainer-needed sentinel
email, is classified OfficiallyMaintained regardless of herds. -/
theorem c3_amended (pkg : Package)
    (hne : pkg.maintainers ≠ [])
    (hall : ∀ m ∈ pkg.maintainers, hasGentooOrg m.email = true)
    (hsent : ¬ ∃ m ∈ pkg.maintainers, pkg.maintainers = [m] ∧
      m.email = "maintainer-needed@gentoo.org") :
    classify pkg = Classification.OfficiallyMaintained := by
  rw [classify_official_iff]
  constructor
  · rw [← Bool.not_eq_true, is_orphan_iff]
    rintro ⟨-, hm | ⟨m, hm, he⟩⟩
    · exact hne hm
    · exact hsent ⟨m, by rw [hm]; exact List.mem_singleton_self m, hm, he⟩
  · rw [← Bool.not_eq_true, is_proxy_iff]
    rintro ⟨m, hm, hf⟩
    rw [hall m hm] at hf; cases hf

/-- C3 witness: one internal developer under the proxy-maintainers herd
tag — OfficiallyMaintained even though the herd tag is present. -/
theorem c3_witness : classify pkgW3 = Classification.OfficiallyMaintained :=
  c3_amended pkgW3 (by decide) (by decide) (by decide)

/-- C4: a package with zero maintainers and zero herds is classified
Orphaned; `resolve_proxy_maintainer` returns the synthetic contact with
the maintainer-needed sentinel email, and the `check-bugs.py` assignee
for its (empty) maintainer email tuple is that same sentinel. -/
theorem c4_zero_zero_orphan (pkg : Package)
    (hh : pkg.herds = []) (hm : pkg.maintainers = []) :
    classify pkg = Classification.Orphaned ∧
    resolve_proxy_maintainer pkg = { email := "maintainer-needed@gentoo.org" } ∧
    checkBugsAssignee (pkg.maintainers.map Maintainer.email) =
      "maintainer-needed@gentoo.org" := by
  refine ⟨?_, ?_, ?_⟩
  · rw [classify_orphaned_iff, is_orphan_iff]
    exact ⟨Or.inl hh, Or.inl hm⟩
  · unfold resolve_proxy_maintainer
    rw [hm]
  · rw [hm]; rfl

/-- C4 witness at the concrete package with empty herds and maintainers. -/
theorem c4_witness :
    classify pkgW4 = Classification.Orphaned ∧
    resolve_proxy_maintainer pkgW4 = { email := "maintainer-needed@gentoo.org" } ∧
    checkBugsAssignee (pkgW4.maintainers.map Maintainer.email) =
      "maintainer-needed@gentoo.org" :=
  c4_zero_zero_orphan pkgW4 rfl rfl

/-- C5, counterexample: `pkgC5` satisfies the claim's hypothesis (single
proxy-maintainers herd tag; `mBob` is an external, non-sentinel
maintainer, indeed the last such one), but `resolve_proxy_maintainer`
returns the later empty-string-email maintainer — the empty string also
lacks the internal-domain substring, so it wins the proxy-candidate slot —
not `mBob` as claimed. -/
theorem c5_counterexample :
    (∃ h, pkgC5.herds = [h] ∧ h.1 = "proxy-maintainers") ∧
    (pkgC5.maintainers.filter
        (fun m => !(hasGentooOrg m.email) && !(isSentinelEmail m.email))).getLast?
      = some mBob ∧
    classify pkgC5 = Classification.ProxyMaintained ∧
    resolve_proxy_maintainer pkgC5 ≠ mBob ∧
    resolve_proxy_maintainer pkgC5 = mEmpty := by
  refine ⟨⟨("proxy-maintainers", none), rfl, rfl⟩, by decide, by decide,
    by decide, by decide⟩

/-- C5, amended: for a package whose herds are exactly the
proxy-maintainers tag and whose maintainers include an external
non-sentinel maintainer, classification is ProxyMaintained and
`resolve_proxy_maintainer` returns the last maintainer in document order
whose email lacks the internal-domain substring (which may be an
empty-string-email maintainer occurring later than the last non-sentinel
external one). -/
theorem c5_amended (pkg : Package)
    (hh : ∃ h, pkg.herds = [h] ∧ h.1 = "proxy-maintainers")
    (hm : ∃ m ∈ pkg.maintainers,
      hasGentooOrg m.email = false ∧ m.email ≠ "") :
    classify pkg = Classification.ProxyMaintained ∧
    ∃ y, lastSuch (fun m => !(hasGentooOrg m.email)) pkg.maintainers = some y ∧
      resolve_proxy_maintainer pkg = y := by
  obtain ⟨m, hmem, hext, -⟩ := hm
  have hpx : is_proxy_maintained pkg = true :=
    (is_proxy_iff pkg).2 ⟨m, hmem, hext⟩
  have horph : is_orphan pkg = false := by
    rw [← Bool.not_eq_true, is_orphan_iff]
    rintro ⟨-, hnil | ⟨m2, hm2, he2⟩⟩
    · rw [hnil] at hmem; cases hmem
    · rw [hm2] at hmem
      rcases List.mem_singleton.1 hmem with rfl
      rw [he2] at hext
      have : hasGentooOrg "maintainer-needed@gentoo.org" = true := by decide
      rw [this] at hext; cases hext
  refine ⟨?_, ?_⟩
  · rw [classify_proxy_iff]; exact hpx
  · obtain ⟨y, hy, -⟩ :=
      lastSuch_some_of_mem (fun m => !(hasGentooOrg m.email)) pkg.maintainers m
        hmem (by simpa using hext)
    refine ⟨y, hy, ?_⟩
    obtain ⟨atom, hs, ms⟩ := pkg
    rcases ms with _ | ⟨m0, mrest⟩
    · cases hmem
    · show (match (m0 :: mrest : List Maintainer) with
        | [] => ({ email := "maintainer-needed@gentoo.org" } : Maintainer)
        | mh :: _ =>
          match (resolveScan (m0 :: mrest)).2 with
          | some p => p
          | none =>
            match (resolveScan (m0 :: mrest)).1 with
            | some s => s
            | none => mh) = y
      have hsnd : (resolveScan (m0 :: mrest)).2 = some y := by
        rw [resolveScan_snd]
        exact hy
      rw [hsnd]

/-- C5 witness at the spec's concrete scenario: internal developer then
external proxy; classification ProxyMaintained and the external proxy is
resolved. -/
theorem c5_witness :
    classify pkgW5 = Classification.ProxyMaintained ∧
    ∃ y, lastSuch (fun m => !(hasGentooOrg m.email)) pkgW5.maintainers = some y ∧
      resolve_proxy_maintainer pkgW5 = y :=
  c5_amended pkgW5 ⟨("proxy-maintainers", none), rfl, rfl⟩
    ⟨{ email := "outside@example.com", name := some "Jane Doe" },
      by decide, by decide, by decide⟩

/-- C6: classification always yields exactly one of the three states:
`is_orphan` and `is_proxy_maintained` are never both true, and `classify`
returns Orphaned exactly on `is_orphan`, ProxyMaintained exactly on
`is_proxy_maintained`, and OfficiallyMaintained exactly when neither
holds. -/
theorem c6_classification_exclusive (pkg : Package) :
    (¬ (is_orphan pkg = true ∧ is_proxy_maintained pkg = true)) ∧
    (classify pkg = Classification.Orphaned ↔ is_orphan pkg = true) ∧
    (classify pkg = Classification.ProxyMaintained ↔
      is_proxy_maintained pkg = true) ∧
    (classify pkg = Classification.OfficiallyMaintained ↔
      (is_orphan pkg = false ∧ is_proxy_maintained pkg = false)) := by
  refine ⟨?_, classify_orphaned_iff pkg, classify_proxy_iff pkg,
    classify_official_iff pkg⟩
  rintro ⟨ho, hp⟩
  rw [orphan_not_proxy pkg ho] at hp
  cases hp

lemma map_fst_upsert {β : Type} (key : String) (miss : β) (upd : β → β) :
    ∀ acc : List (String × β),
      (upsert key miss upd acc).map Prod.fst =
        if key ∈ acc.map Prod.fst then acc.map Prod.fst
        else acc.map Prod.fst ++ [key] := by
  intro acc
  induction acc with
  | nil => simp [upsert]
  | cons e es ih =>
    by_cases he : e.1 = key
    · simp [upsert, he]
    · simp only [upsert, if_neg he, List.map_cons]
      rw [ih]
      by_cases hk : key ∈ es.map Prod.fst
      · simp [hk, Ne.symm he]
      · simp [hk, Ne.symm he]

lemma mem_map_fst_upsert {β : Type} (key : String) (miss : β) (upd : β → β)
    (acc : List (String × β)) (x : String) :
    x ∈ (upsert key miss upd acc).map Prod.fst ↔
      x ∈ acc.map Prod.fst ∨ x = key := by
  rw [map_fst_upsert]
  by_cases hk : key ∈ acc.map Prod.fst
  · rw [if_pos hk]
    constructor
    · exact Or.inl
    · rintro (hx | rfl)
      · exact hx
      · exact hk
  · rw [if_neg hk]
    simp [List.mem_append]

lemma nodup_append_singleton {x : String} {l : List String}
    (h : l.Nodup) (hx : x ∉ l) : (l ++ [x]).Nodup := by
  rw [List.nodup_append]
  refine ⟨h, List.nodup_singleton x, fun a ha hb => ?_⟩
  rw [List.mem_singleton] at hb
  subst hb
  exact hx ha

lemma nodup_map_fst_upsert {β : Type} (key : String) (miss : β) (upd : β → β)
    (acc : List (String × β)) (h : (acc.map Prod.fst).Nodup) :
    ((upsert key miss upd acc).map Prod.fst).Nodup := by
  rw [map_fst_upsert]
  by_cases hk : key ∈ acc.map Prod.fst
  · simpa [hk] using h
  · simpa [hk] using nodup_append_singleton h hk

lemma mem_keys_addPkgMaintainers (atom : String) :
    ∀ (ms : List Maintainer) (acc : List MEntry) (x : String),
      x ∈ mKeys (addPkgMaintainers atom ms acc) ↔
        x ∈ mKeys acc ∨
          ∃ m ∈ ms, hasGentooOrg m.email = false ∧ m.email = x := by
  intro ms
  induction ms with
  | nil => intro acc x; simp [addPkgMaintainers, mKeys]
  | cons m rest ih =>
    intro acc x
    have hstep : addPkgMaintainers atom (m :: rest) acc =
        addPkgMaintainers atom rest
          (if hasGentooOrg m.email = false then
            addMaintAtom m.email m.name atom acc
          else acc) := by
      simp only [addPkgMaintainers, List.foldl_cons]
    rw [hstep]
    by_cases hext : hasGentooOrg m.email = false
    · rw [if_pos hext, ih]
      unfold mKeys addMaintAtom
      rw [mem_map_fst_upsert]
      simp only [List.mem_cons]
      constructor
      · rintro ((hx | rfl) | ⟨m2, hm2, h1, h2⟩)
        · exact Or.inl hx
        · exact Or.inr ⟨m, Or.inl rfl, hext, rfl⟩
        · exact Or.inr ⟨m2, Or.inr hm2, h1, h2⟩
      · rintro (hx | ⟨m2, (rfl | hm2), h1, h2⟩)
        · exact Or.inl (Or.inl hx)
        · exact Or.inl (Or.inr h2.symm)
        · exact Or.inr ⟨m2, hm2, h1, h2⟩
    · rw [if_neg hext, ih]
      simp only [List.mem_cons]
      constructor
      · rintro (hx | ⟨m2, hm2, h1, h2⟩)
        · exact Or.inl hx
        · exact Or.inr ⟨m2, Or.inr hm2, h1, h2⟩
      · rintro (hx | ⟨m2, (rfl | hm2), h1, h2⟩)
        · exact Or.inl hx
        · exact absurd h1 hext
        · exact Or.inr ⟨m2, hm2, h1, h2⟩

lemma nodup_keys_addPkgMaintainers (atom : String) :
    ∀ (ms : List Maintainer) (acc : List MEntry),
      (mKeys acc).Nodup → (mKeys (addPkgMaintainers atom ms acc)).Nodup := by
  intro ms
  induction ms with
  | nil => intro acc h; simpa [addPkgMaintainers] using h
  | cons m rest ih =>
    intro acc h
    have hstep : addPkgMaintainers atom (m :: rest) acc =
        addPkgMaintainers atom rest
          (if hasGentooOrg m.email = false then
            addMaintAtom m.email m.name atom acc
          else acc) := by
      simp only [addPkgMaintainers, List.foldl_cons]
    rw [hstep]
    by_cases hext : hasGentooOrg m.email = false
    · rw [if_pos hext]
      exact ih _ (nodup_map_fst_upsert _ _ _ _ h)
    · rw [if_neg hext]
      exact ih _ h

lemma mem_keys_gm_aux :
    ∀ (pkgs : List Package) (acc : List MEntry) (x : String),
      x ∈ mKeys (pkgs.foldl
        (fun acc2 pkg =>
          if is_proxy_maintained pkg = true then
            addPkgMaintainers pkg.atom pkg.maintainers acc2
          else acc2)
        acc) ↔
      x ∈ mKeys acc ∨
        ∃ pkg ∈ pkgs, is_proxy_maintained pkg = true ∧
          ∃ m ∈ pkg.maintainers, hasGentooOrg m.email = false ∧ m.email = x := by
  intro pkgs
  induction pkgs with
  | nil => intro acc x; simp
  | cons pkg rest ih =>
    intro acc x
    rw [List.foldl_cons]
    by_cases hpx : is_proxy_maintained pkg = true
    · rw [if_pos hpx, ih, mem_keys_addPkgMaintainers]
      simp only [List.mem_cons]
      constructor
      · rintro ((hx | ⟨m, hm, h1, h2⟩) | ⟨p2, hp2, hx2, hm2⟩)
        · exact Or.inl hx
        · exact Or.inr ⟨pkg, Or.inl rfl, hpx, m, hm, h1, h2⟩
        · exact Or.inr ⟨p2, Or.inr hp2, hx2, hm2⟩
      · rintro (hx | ⟨p2, (rfl | hp2), hx2, hm2⟩)
        · exact Or.inl (Or.inl hx)
        · exact Or.inl (Or.inr hm2)
        · exact Or.inr ⟨p2, hp2, hx2, hm2⟩
    · rw [if_neg hpx, ih]
      simp only [List.mem_cons]
      constructor
      · rintro (hx | ⟨p2, hp2, hx2, hm2⟩)
        · exact Or.inl hx
        · exact Or.inr ⟨p2, Or.inr hp2, hx2, hm2⟩
      · rintro (hx | ⟨p2, (rfl | hp2), hx2, hm2⟩)
        · exact Or.inl hx
        · exact absurd hx2 hpx
        · exact Or.inr ⟨p2, hp2, hx2, hm2⟩

lemma mem_keys_get_maintainers (pkgs : List Package) (x : String) :
    x ∈ mKeys (get_maintainers pkgs) ↔
      ∃ pkg ∈ pkgs, is_proxy_maintained pkg = true ∧
        ∃ m ∈ pkg.maintainers, hasGentooOrg m.email = false ∧ m.email = x := by
  unfold get_maintainers
  rw [mem_keys_gm_aux]
  simp [mKeys]

lemma nodup_keys_gm_aux :
    ∀ (pkgs : List Package) (acc : List MEntry),
      (mKeys acc).Nodup →
      (mKeys (pkgs.foldl
        (fun acc2 pkg =>
          if is_proxy_maintained pkg = true then
            addPkgMaintainers pkg.atom pkg.maintainers acc2
          else acc2)
        acc)).Nodup := by
  intro pkgs
  induction pkgs with
  | nil => intro acc h; exact h
  | cons pkg rest ih =>
    intro acc h
    rw [List.foldl_cons]
    by_cases hpx : is_proxy_maintained pkg = true
    · rw [if_pos hpx]
      exact ih _ (nodup_keys_addPkgMaintainers pkg.atom pkg.maintainers acc h)
    · rw [if_neg hpx]
      exact ih _ h

lemma nodup_keys_get_maintainers (pkgs : List Package) :
    (mKeys (get_maintainers pkgs)).Nodup := by
  unfold get_maintainers
  exact nodup_keys_gm_aux pkgs [] (by simp [mKeys])

/-- C7, counterexample: the two orderings of the same two packages are a
permutation of each other, yet the grouped, key-sorted report differs —
the display name stored under a shared email key is taken from whichever
package came first, so the aggregate report is not independent of input
package order. -/
theorem c7_counterexample :
    ([pkgA7, pkgB7].Perm [pkgB7, pkgA7]) ∧
    sortedReport [pkgA7, pkgB7] ≠ sortedReport [pkgB7, pkgA7] :=
  ⟨List.Perm.swap pkgB7 pkgA7 [], by decide⟩

/-- C7, amended: the sorted sequence of grouped email keys is the same for
any two input orderings of the same packages (keys compared
case-sensitively as code-point lexicographic strings); only the attached
display names and per-maintainer atom orders can depend on input order. -/
theorem c7_amended (pkgs1 pkgs2 : List Package) (hperm : pkgs1.Perm pkgs2) :
    sortKeys (mKeys (get_maintainers pkgs1)) =
      sortKeys (mKeys (get_maintainers pkgs2)) := by
  have hkeys : (mKeys (get_maintainers pkgs1)).Perm
      (mKeys (get_maintainers pkgs2)) := by
    rw [List.perm_ext_iff_of_nodup (nodup_keys_get_maintainers pkgs1)
      (nodup_keys_get_maintainers pkgs2)]
    intro a
    rw [mem_keys_get_maintainers, mem_keys_get_maintainers]
    constructor
    · rintro ⟨pkg, hp, hrest⟩
      exact ⟨pkg, hperm.mem_iff.1 hp, hrest⟩
    · rintro ⟨pkg, hp, hrest⟩
      exact ⟨pkg, hperm.mem_iff.2 hp, hrest⟩
  exact List.eq_of_perm_of_sorted
    ((List.perm_insertionSort emailLe _).trans
      (hkeys.trans (List.perm_insertionSort emailLe _).symm))
    (List.sorted_insertionSort emailLe _)
    (List.sorted_insertionSort emailLe _)

/-- C7 witness: concrete two-package permutation instance of the amended
theorem. -/
theorem c7_witness :
    sortKeys (mKeys (get_maintainers [pkgA7, pkgB7])) =
      sortKeys (mKeys (get_maintainers [pkgB7, pkgA7])) :=
  c7_amended [pkgA7, pkgB7] [pkgB7, pkgA7] (List.Perm.swap pkgB7 pkgA7 [])

lemma portLoop_cons (c : Nat → Bool) (d : Nat) (t : List Nat) (p : Nat)
    (ps : List Nat) :
    portLoop c d t (p :: ps) =
      if p ∈ t then ScanEvent.sleep d :: portLoop c d t ps
      else ScanEvent.sleep d :: ScanEvent.attempt p (c p) ::
        portLoop c d (t ++ [p]) ps := by
  by_cases hp : p ∈ t <;> simp [portLoop, testConnection, hp]

lemma attempted_cons_sleep (d : Nat) (evs : List ScanEvent) :
    attemptedPorts (ScanEvent.sleep d :: evs) = attemptedPorts evs := by
  simp [attemptedPorts]

lemma attempted_cons_attempt (p : Nat) (b : Bool) (evs : List ScanEvent) :
    attemptedPorts (ScanEvent.attempt p b :: evs) = p :: attemptedPorts evs := by
  simp [attemptedPorts]

lemma count_attempted (c : Nat → Bool) (d : Nat) :
    ∀ (ps t : List Nat) (p : Nat),
      (attemptedPorts (portLoop c d t ps)).count p =
        if p ∈ ps ∧ p ∉ t then 1 else 0 := by
  intro ps
  induction ps with
  | nil => intro t p; simp [portLoop, attemptedPorts]
  | cons a ps ih =>
    intro t p
    rw [portLoop_cons]
    by_cases ha : a ∈ t
    · rw [if_pos ha, attempted_cons_sleep, ih]
      by_cases hpa : p = a
      · subst hpa
        simp [ha]
      · simp [List.mem_cons, hpa]
    · rw [if_neg ha, attempted_cons_sleep, attempted_cons_attempt,
        List.count_cons, ih]
      by_cases hpa : p = a
      · subst hpa
        simp [List.mem_append, ha]
      · simp [List.mem_append, List.mem_cons, hpa, Ne.symm hpa]

/-- C8: the port loop is sequential — each iteration begins with the
fixed-delay sleep — and a connection failure on one port is an
independent, non-fatal, non-retried result: forcing any port `q` to fail
changes only the recorded outcome at `q`, leaving every sleep and every
other port's attempt and outcome in the trace unchanged. -/
theorem c8_sequential_independent :
    (∀ (c : Nat → Bool) (d : Nat) (t : List Nat) (p : Nat) (ps : List Nat),
      ∃ rest, portLoop c d t (p :: ps) = ScanEvent.sleep d :: rest) ∧
    (∀ (c : Nat → Bool) (d : Nat) (t : List Nat) (ps : List Nat) (q : Nat),
      portLoop (fun p => if p = q then false else c p) d t ps =
        (portLoop c d t ps).map (forceFailAt q)) := by
  constructor
  · intro c d t p ps
    rw [portLoop_cons]
    by_cases hp : p ∈ t
    · exact ⟨_, if_pos hp⟩
    · exact ⟨_, if_neg hp⟩
  · intro c d t ps q
    induction ps generalizing t with
    | nil => rfl
    | cons p ps ih =>
      rw [portLoop_cons, portLoop_cons]
      by_cases hp : p ∈ t
      · rw [if_pos hp, if_pos hp, List.map_cons]
        exact congrArg (fun l => ScanEvent.sleep d :: l) (ih t)
      · rw [if_neg hp, if_neg hp, List.map_cons, List.map_cons]
        exact congrArg
          (fun l => ScanEvent.sleep d ::
            ScanEvent.attempt p (if p = q then false else c p) :: l)
          (ih (t ++ [p]))

/-- C9: `testConnection` appends each newly handled port to the tested
list and returns `None` without opening a socket on a port already
tested; consequently a run started with the fresh empty tested list makes
exactly one connection attempt per distinct port of the (possibly
duplicated) port sequence, and none for absent ports. -/
theorem c9_each_port_once :
    (∀ (c : Nat → Bool) (t : List Nat) (p : Nat),
      testConnection c t p =
        if p ∈ t then (t, none) else (t ++ [p], some (c p))) ∧
    (∀ (c : Nat → Bool) (d : Nat) (ps : List Nat) (p : Nat),
      (attemptedPorts (portLoop c d [] ps)).count p =
        if p ∈ ps then 1 else 0) := by
  refine ⟨fun c t p => rfl, fun c d ps p => ?_⟩
  rw [count_attempted]
  simp

lemma ebuildVars_error (eb : String) (e : PyErr)
    (h : ebuildVars eb = Except.error e) : e = PyErr.attributeError := by
  simp only [ebuildVars] at h
  split at h
  · injection h with h2
    exact h2.symm
  · cases h

lemma collectFiles_error (content : String → List String) :
    ∀ (ebs : List String) (acc : List (String × List String)) (e : PyErr),
      collectFiles content ebs acc = Except.error e →
      e = PyErr.attributeError := by
  intro ebs
  induction ebs with
  | nil => intro acc e h; cases h
  | cons eb rest ih =>
    intro acc e h
    simp only [collectFiles] at h
    cases hv : ebuildVars eb with
    | error e2 =>
      rw [hv] at h
      injection h with h2
      rw [← h2]
      exact ebuildVars_error eb e2 hv
    | ok v =>
      obtain ⟨P, PN, PV⟩ := v
      rw [hv] at h
      exact ih _ e h

lemma collectFiles_ok (content : String → List String) :
    ∀ (ebs : List String) (acc : List (String × List String)),
      (∀ eb ∈ ebs, ∃ v, ebuildVars eb = Except.ok v) →
      ∃ files, collectFiles content ebs acc = Except.ok files := by
  intro ebs
  induction ebs with
  | nil => intro acc _; exact ⟨acc, rfl⟩
  | cons eb rest ih =>
    intro acc h
    obtain ⟨v, hv⟩ := h eb (List.mem_cons_self eb rest)
    obtain ⟨P, PN, PV⟩ := v
    obtain ⟨files, hf⟩ :=
      ih (collectLines P PN PV (String.mk P) (content eb) acc)
        (fun eb2 hm => h eb2 (List.mem_cons_of_mem eb hm))
    refine ⟨files, ?_⟩
    simp only [collectFiles]
    rw [hv]
    exact hf

lemma totalWeight_addReq (w : String → Nat) (k v : String) :
    ∀ acc, totalWeight w (addReq k v acc) = totalWeight w acc + w v := by
  intro acc
  induction acc with
  | nil => simp [addReq, upsert, totalWeight]
  | cons e es ih =>
    by_cases he : e.1 = k
    · simp only [addReq, upsert, if_pos he, totalWeight, List.map_cons,
        List.sum_cons, List.map_append, List.sum_append]
      simp
      omega
    · simp only [addReq, upsert, if_neg he, totalWeight, List.map_cons,
        List.sum_cons]
      simp only [addReq, totalWeight] at ih
      omega

lemma collectLines_weight (w : String → Nat) (P PN PV : List Char)
    (K : String) :
    ∀ (lines : List String) (acc : List (String × List String)),
      totalWeight w (collectLines P PN PV K lines acc) =
        totalWeight w acc +
          ((lines.filterMap
            (fun line => (processLine P PN PV line.toList).map String.mk)).map
              w).sum := by
  intro lines
  induction lines with
  | nil => intro acc; simp [collectLines]
  | cons line rest ih =>
    intro acc
    cases hp : processLine P PN PV line.toList with
    | none =>
      have hstep : collectLines P PN PV K (line :: rest) acc =
          collectLines P PN PV K rest acc := by
        simp only [collectLines, List.foldl_cons, hp]
      have hp2 : processLine P PN PV line.data = none := hp
      rw [hstep, ih]
      simp [List.filterMap_cons, hp2]
    | some rf =>
      have hstep : collectLines P PN PV K (line :: rest) acc =
          collectLines P PN PV K rest (addReq K (String.mk rf) acc) := by
        simp only [collectLines, List.foldl_cons, hp]
      have hp2 : processLine P PN PV line.data = some rf := hp
      rw [hstep, ih, totalWeight_addReq]
      simp [List.filterMap_cons, hp2]
      omega

lemma collectFiles_weight (content : String → List String) (w : String → Nat) :
    ∀ (ebs : List String) (acc files : List (String × List String)),
      collectFiles content ebs acc = Except.ok files →
      totalWeight w files =
        totalWeight w acc + ((flatReqs content ebs).map w).sum := by
  intro ebs
  induction ebs with
  | nil =>
    intro acc files h
    injection h with h2
    subst h2
    simp [flatReqs]
  | cons eb rest ih =>
    intro acc files h
    simp only [collectFiles] at h
    cases hv : ebuildVars eb with
    | error e2 => rw [hv] at h; cases h
    | ok v =>
      obtain ⟨P, PN, PV⟩ := v
      rw [hv] at h
      have hrest := ih _ files h
      rw [collectLines_weight] at hrest
      have hflat : flatReqs content (eb :: rest) =
          ebuildReqs content eb ++ flatReqs content rest := rfl
      have hreqs : ebuildReqs content eb =
          (content eb).filterMap
            (fun line => (processLine P PN PV line.toList).map String.mk) := by
        simp [ebuildReqs, hv]
      rw [hflat, hreqs, List.map_append, List.sum_append]
      omega

lemma nodup_keys_collectLines (P PN PV : List Char) (K : String) :
    ∀ (lines : List String) (acc : List (String × List String)),
      (acc.map Prod.fst).Nodup →
      ((collectLines P PN PV K lines acc).map Prod.fst).Nodup := by
  intro lines
  induction lines with
  | nil => intro acc h; exact h
  | cons line rest ih =>
    intro acc h
    cases hp : processLine P PN PV line.toList with
    | none =>
      have hstep : collectLines P PN PV K (line :: rest) acc =
          collectLines P PN PV K rest acc := by
        simp only [collectLines, List.foldl_cons, hp]
      rw [hstep]
      exact ih acc h
    | some rf =>
      have hstep : collectLines P PN PV K (line :: rest) acc =
          collectLines P PN PV K rest (addReq K (String.mk rf) acc) := by
        simp only [collectLines, List.foldl_cons, hp]
      rw [hstep]
      exact ih _ (nodup_map_fst_upsert _ _ _ acc h)

lemma nodup_keys_collectFiles (content : String → List String) :
    ∀ (ebs : List String) (acc files : List (String × List String)),
      collectFiles content ebs acc = Except.ok files →
      (acc.map Prod.fst).Nodup → (files.map Prod.fst).Nodup := by
  intro ebs
  induction ebs with
  | nil =>
    intro acc files h hnd
    injection h with h2
    subst h2
    exact hnd
  | cons eb rest ih =>
    intro acc files h hnd
    simp only [collectFiles] at h
    cases hv : ebuildVars eb with
    | error e2 => rw [hv] at h; cases h
    | ok v =>
      obtain ⟨P, PN, PV⟩ := v
      rw [hv] at h
      exact ih _ files h (nodup_keys_collectLines P PN PV _ _ acc hnd)

lemma map_lookup_keys (g : List String → Nat) :
    ∀ files : List (String × List String), (files.map Prod.fst).Nodup →
      (files.map Prod.fst).map (fun k => g ((files.lookup k).getD [])) =
        files.map (fun e => g e.2) := by
  intro files
  induction files with
  | nil => intro _; rfl
  | cons e es ih =>
    intro h
    obtain ⟨k, vs⟩ := e
    rw [List.map_cons] at h
    obtain ⟨hk, hnd⟩ := List.nodup_cons.1 h
    rw [List.map_cons, List.map_cons, List.map_cons]
    have hhead : ((List.lookup k ((k, vs) :: es)).getD []) = vs := by
      simp [List.lookup]
    rw [hhead]
    have htail : (es.map Prod.fst).map
        (fun k2 => g ((List.lookup k2 ((k, vs) :: es)).getD [])) =
        (es.map Prod.fst).map
          (fun k2 => g ((List.lookup k2 es).getD [])) := by
      apply List.map_congr_left
      intro k2 hk2
      have hne : (k2 == k) = false := by
        rw [beq_eq_false_iff_ne]
        rintro rfl
        exact hk hk2
      simp [List.lookup, hne]
    rw [htail, ih hnd]

lemma sum_indicator (pred : String → Bool) :
    ∀ l : List String,
      (l.map (fun f => if pred f then 1 else 0)).sum = l.countP pred := by
  intro l
  induction l with
  | nil => rfl
  | cons a l ih =>
    by_cases hp : pred a
    · simp [List.countP_cons, hp, ih]
      omega
    · simp [List.countP_cons, hp, ih]

lemma check_files_err_unfold (listing : List String)
    (content : String → List String) (fd : Bool) (isfile : String → Bool)
    (e : PyErr)
    (hlen : ¬ (listing.filter (fun f => strEndsWith f ".ebuild")).length = 0)
    (hcol : collectFiles content
      (listing.filter (fun f => strEndsWith f ".ebuild")) [] = Except.error e) :
    check_files listing content fd isfile = Except.error e := by
  unfold check_files
  rw [if_neg hlen, hcol]

lemma check_files_ok_unfold (listing : List String)
    (content : String → List String) (fd : Bool) (isfile : String → Bool)
    (files : List (String × List String))
    (hlen : ¬ (listing.filter (fun f => strEndsWith f ".ebuild")).length = 0)
    (hcol : collectFiles content
      (listing.filter (fun f => strEndsWith f ".ebuild")) [] = Except.ok files) :
    check_files listing content fd isfile =
      (if (sortKeys (files.map Prod.fst)).length > 0 then
        if fd = false then Except.ok (totalWeight String.length files)
        else Except.ok (((sortKeys (files.map Prod.fst)).map (fun pkg =>
          ((files.lookup pkg).getD []).countP (fun f => !(isfile f)))).sum)
      else Except.ok 0) := by
  unfold check_files
  rw [if_neg hlen, hcol]

/-- C10, counterexample: the claim fails in two independent ways.
First, the directory listing `["foo.ebuild"]` contains an ebuild, yet
`check_files` raises — `re.search('-\d.*', P)` finds no version segment
and `.group(0)` raises AttributeError, which is not caught.  Second, for
`["foo-1.0.ebuild"]` referencing exactly one FILESDIR file with the
`files` subdirectory absent, every referenced file is missing, so the
claimed return value is 1; the code instead adds `len(v)` — the length of
the path string `files/foo-1.0-fix.patch` — and returns 23. -/
theorem c10_counterexample :
    check_files ["foo.ebuild"] (fun _ => []) true (fun _ => false) =
      Except.error PyErr.attributeError ∧
    flatReqs demoContent ["foo-1.0.ebuild"] = ["files/foo-1.0-fix.patch"] ∧
    check_files ["foo-1.0.ebuild"] demoContent false (fun _ => false) =
      Except.ok 23 ∧
    (23 : Nat) ≠ 1 :=
  ⟨rfl, rfl, rfl, by decide⟩

/-- C10, amended: `check_files` raises RuntimeError exactly when the
directory contains no file named `*.ebuild`, and `main` maps that to -1.
When ebuilds are present and each ebuild name yields its version
variables (no uncaught AttributeError from a version-less name), the
function returns a natural number `n` (hence non-negative): with the
`files` subdirectory present, `n` is the count of FILESDIR-referenced
files missing from disk; with it absent, `n` is instead the sum of the
lengths of the referenced path strings. -/
theorem c10_amended (listing : List String) (content : String → List String)
    (fd : Bool) (isfile : String → Bool) :
    (check_files listing content fd isfile = Except.error PyErr.runtimeError ↔
      listing.filter (fun f => strEndsWith f ".ebuild") = []) ∧
    (listing.filter (fun f => strEndsWith f ".ebuild") = [] →
      check_files_main listing content fd isfile = Except.ok (-1)) ∧
    ((∀ eb ∈ listing.filter (fun f => strEndsWith f ".ebuild"),
        ∃ v, ebuildVars eb = Except.ok v) →
      listing.filter (fun f => strEndsWith f ".ebuild") ≠ [] →
      ∃ n : Nat, check_files listing content fd isfile = Except.ok n ∧
        (fd = true →
          n = (flatReqs content
            (listing.filter (fun f => strEndsWith f ".ebuild"))).countP
              (fun f => !(isfile f))) ∧
        (fd = false →
          n = ((flatReqs content
            (listing.filter (fun f => strEndsWith f ".ebuild"))).map
              String.length).sum)) := by
  have hmain : ∀ ebs : List String, ebs = [] →
      check_files listing content fd isfile = Except.error PyErr.runtimeError →
      check_files_main listing content fd isfile = Except.ok (-1) := by
    intro ebs _ hcf
    unfold check_files_main
    rw [hcf]
  refine ⟨?_, ?_, ?_⟩
  · constructor
    · intro h
      by_contra hne
      have hlen : ¬ (listing.filter (fun f => strEndsWith f ".ebuild")).length = 0 := by
        intro h0
        exact hne (List.length_eq_zero.1 h0)
      cases hcol : collectFiles content
          (listing.filter (fun f => strEndsWith f ".ebuild")) [] with
      | error e =>
        rw [check_files_err_unfold listing content fd isfile e hlen hcol] at h
        injection h with h2
        have := collectFiles_error content _ _ _ hcol
        rw [this] at h2
        cases h2
      | ok files =>
        rw [check_files_ok_unfold listing content fd isfile files hlen hcol] at h
        split at h
        · split at h <;> cases h
        · cases h
    · intro h
      unfold check_files
      rw [if_pos (by rw [h]; rfl)]
  · intro h
    have hcf : check_files listing content fd isfile =
        Except.error PyErr.runtimeError := by
      unfold check_files
      rw [if_pos (by rw [h]; rfl)]
    exact hmain _ h hcf
  · intro hall hne
    have hlen : ¬ (listing.filter (fun f => strEndsWith f ".ebuild")).length = 0 := by
      intro h0
      exact hne (List.length_eq_zero.1 h0)
    obtain ⟨files, hcol⟩ := collectFiles_ok content _ [] hall
    have hnd : (files.map Prod.fst).Nodup :=
      nodup_keys_collectFiles content _ [] files hcol (by simp)
    have hwt : ∀ w : String → Nat, totalWeight w files =
        ((flatReqs content
          (listing.filter (fun f => strEndsWith f ".ebuild"))).map w).sum := by
      intro w
      have := collectFiles_weight content w _ [] files hcol
      simpa [totalWeight] using this
    rw [check_files_ok_unfold listing content fd isfile files hlen hcol]
    by_cases hfl : (sortKeys (files.map Prod.fst)).length > 0
    · rw [if_pos hfl]
      by_cases hfd : fd = false
      · rw [if_pos hfd]
        refine ⟨totalWeight String.length files, rfl, ?_, ?_⟩
        · intro h1; rw [h1] at hfd; cases hfd
        · intro _; exact hwt String.length
      · rw [if_neg hfd]
        have hfdt : fd = true := by
          cases fd
          · exact absurd rfl hfd
          · rfl
        set w : String → Nat := fun f => if !(isfile f) then 1 else 0 with hw
        have hsum : ((sortKeys (files.map Prod.fst)).map (fun pkg =>
            ((files.lookup pkg).getD []).countP (fun f => !(isfile f)))).sum =
            (flatReqs content
              (listing.filter (fun f => strEndsWith f ".ebuild"))).countP
                (fun f => !(isfile f)) := by
          have hperm : (sortKeys (files.map Prod.fst)).Perm (files.map Prod.fst) :=
            List.perm_insertionSort emailLe _
          have h1 : ((sortKeys (files.map Prod.fst)).map (fun pkg =>
              ((files.lookup pkg).getD []).countP (fun f => !(isfile f)))).sum =
              ((files.map Prod.fst).map (fun pkg =>
              ((files.lookup pkg).getD []).countP (fun f => !(isfile f)))).sum :=
            (hperm.map _).sum_eq
          rw [h1, map_lookup_keys (fun l => l.countP (fun f => !(isfile f)))
            files hnd]
          have h2 : files.map (fun e => e.2.countP (fun f => !(isfile f))) =
              files.map (fun e => (e.2.map w).sum) := by
            apply List.map_congr_left
            intro e _
            rw [hw]
            exact (sum_indicator (fun f => !(isfile f)) e.2).symm
          rw [h2]
          have h3 : (files.map (fun e => (e.2.map w).sum)).sum =
              totalWeight w files := rfl
          rw [h3, hwt w, hw]
          exact sum_indicator (fun f => !(isfile f)) _
        refine ⟨_, rfl, ?_, ?_⟩
        · intro _; exact hsum
        · intro h0; rw [h0] at hfdt; cases hfdt
    · rw [if_neg hfl]
      have hfiles : files = [] := by
        have hl : (sortKeys (files.map Prod.fst)).length =
            (files.map Prod.fst).length :=
          (List.perm_insertionSort emailLe _).length_eq
        have h0 : (files.map Prod.fst).length = 0 := by omega
        have h1 : files.map Prod.fst = [] := List.length_eq_zero.1 h0
        exact List.map_eq_nil_iff.1 h1
      subst hfiles
      have hflat0 : ∀ w : String → Nat,
          ((flatReqs content
            (listing.filter (fun f => strEndsWith f ".ebuild"))).map w).sum = 0 := by
        intro w
        have := hwt w
        simpa [totalWeight] using this.symm
      refine ⟨0, rfl, ?_, ?_⟩
      · intro _
        have := hflat0 (fun f => if !(isfile f) then 1 else 0)
        rw [sum_indicator] at this
        exact this.symm
      · intro _
        exact (hflat0 String.length).symm

/-- C10 witness: with the single ebuild `foo-1.0.ebuild`, the FILESDIR
reference found, the `files` directory present and no file on disk,
`check_files` returns the missing count — here 1. -/
theorem c10_witness :
    ∃ n : Nat,
      check_files ["foo-1.0.ebuild"] demoContent true (fun _ => false) =
        Except.ok n ∧
      (true = true →
        n = (flatReqs demoContent
          (["foo-1.0.ebuild"].filter (fun f => strEndsWith f ".ebuild"))).countP
            (fun f => !((fun _ : String => false) f))) ∧
      (true = false →
        n = ((flatReqs demoContent
          (["foo-1.0.ebuild"].filter (fun f => strEndsWith f ".ebuild"))).map
            String.length).sum) :=
  (c10_amended ["foo-1.0.ebuild"] demoContent true (fun _ => false)).2.2
    (by
      intro eb hm
      have hflt : (["foo-1.0.ebuild"].filter (fun f => strEndsWith f ".ebuild")) =
          ["foo-1.0.ebuild"] := rfl
      rw [hflt] at hm
      have : eb = "foo-1.0.ebuild" := List.mem_singleton.1 hm
      subst this
      exact ⟨_, rfl⟩)
    (by decide)

end ProxyTools
